import Mathlib

/-!
Shallow embedding of the wolf3d raycaster (`wolf3d_main.py`) and proofs of
the specification's claims about it.

Python `float` arithmetic is modelled over `ℝ`; Python `int(q)` (truncation
toward zero) is modelled by `pyint`; the Python `%` operator on reals with a
positive modulus is modelled by `pymod`; `math.hypot` by `hypot`;
`math.atan2 y x` by `atan2` (the argument of the complex number `x + y·i`).
-/

open Real

noncomputable section

open Classical

/-- Constants from the source header. -/
def SCREEN_WIDTH : ℕ := 1366

def SCREEN_HEIGHT : ℕ := 728

def MAP_WIDTH : ℤ := 8

def MAP_HEIGHT : ℤ := 8

def TILE_SIZE : ℝ := 64

def FOV : ℝ := Real.pi / 3

def NUM_RAYS : ℕ := 240

def MAX_DEPTH : ℕ := 800

def DELTA_ANGLE : ℝ := FOV / NUM_RAYS

def DISTANCE : ℝ := NUM_RAYS / (2 * Real.tan (FOV / 2))

def PROJ_COEFF : ℝ := 3 * DISTANCE * TILE_SIZE

def SCALE : ℕ := SCREEN_WIDTH / NUM_RAYS

/-- The map grid: 1 = wall, 0 = empty. -/
def game_map : List (List ℕ) :=
  [[1,1,1,1,1,1,1,1],
   [1,0,0,0,0,0,0,1],
   [1,0,1,0,1,0,0,1],
   [1,0,1,0,1,0,0,1],
   [1,0,0,0,0,0,0,1],
   [1,0,1,1,1,1,0,1],
   [1,0,0,0,0,0,0,1],
   [1,1,1,1,1,1,1,1]]

/-- In-range lookup `game_map[j][i]`, meaningful only for indices inside the
grid. It is used only where the source checks the bounds first (`can_move`,
`move_toward_player`) or under the `inGrid` guards of `marchReaches`; the
unguarded accesses of the depth march itself go through `pyCell?` below,
which models Python list indexing exactly. -/
def cell (i j : ℤ) : ℕ := (game_map.getD j.toNat []).getD i.toNat 1

/-- Python list indexing `l[n]`: indices in `[0, len)` read directly,
indices in `[-len, 0)` wrap to `n + len`, and anything else raises
IndexError (modelled as `none`). -/
def pyGet? {α : Type} (l : List α) (n : ℤ) : Option α :=
  if 0 ≤ n then l.get? n.toNat
  else if 0 ≤ n + l.length then l.get? (n + l.length).toNat
  else none

/-- The unguarded access `game_map[j][i]` with exact Python semantics:
`some v` on success (including negative-index wraparound), `none` when the
row or column index raises IndexError. -/
def pyCell? (i j : ℤ) : Option ℕ :=
  (pyGet? game_map j).bind fun row => pyGet? row i

/-- The bounds check `0 <= i < len(game_map[0]) and 0 <= j < len(game_map)`
(both lengths are 8 = `MAP_WIDTH` = `MAP_HEIGHT`). -/
def inGrid (i j : ℤ) : Prop :=
  0 ≤ i ∧ i < MAP_WIDTH ∧ 0 ≤ j ∧ j < MAP_HEIGHT

instance (i j : ℤ) : Decidable (inGrid i j) :=
  inferInstanceAs (Decidable (0 ≤ i ∧ i < MAP_WIDTH ∧ 0 ≤ j ∧ j < MAP_HEIGHT))

/-- Python `int()` applied to a real: truncation toward zero. -/
def pyint (q : ℝ) : ℤ := if 0 ≤ q then ⌊q⌋ else ⌈q⌉

/-- Python `a % b` for real `a` and positive real `b`. -/
def pymod (a b : ℝ) : ℝ := a - b * ⌊a / b⌋

/-- `math.hypot`. -/
def hypot (a b : ℝ) : ℝ := Real.sqrt (a ^ 2 + b ^ 2)

/-- `math.atan2 y x`, the angle of the point `(x, y)`. -/
def atan2 (y x : ℝ) : ℝ := Complex.arg ⟨x, y⟩

/-- Source `can_move(x, y)`: the position lies inside an empty map tile. -/
def can_move (x y : ℝ) : Prop :=
  inGrid (pyint (x / TILE_SIZE)) (pyint (y / TILE_SIZE)) ∧
    cell (pyint (x / TILE_SIZE)) (pyint (y / TILE_SIZE)) = 0

/- ## Basic facts about `pyint` and the grid -/

theorem pyint_of_nonneg {q : ℝ} (h : 0 ≤ q) : pyint q = ⌊q⌋ := if_pos h

theorem pyint_nonpos_of_neg {q : ℝ} (h : q < 0) : pyint q ≤ 0 := by
  rw [pyint, if_neg (not_le.mpr h)]
  exact Int.ceil_le.mpr (by exact_mod_cast h.le)

theorem pyint_eq (q : ℝ) (n : ℤ) (h0 : 0 ≤ q) (h1 : (n : ℝ) ≤ q)
    (h2 : q < n + 1) : pyint q = n := by
  rw [pyint_of_nonneg h0]
  exact Int.floor_eq_iff.mpr ⟨h1, h2⟩

theorem can_move_eval {x y : ℝ} {i j : ℤ} (hx : pyint (x / TILE_SIZE) = i)
    (hy : pyint (y / TILE_SIZE) = j) (hb : inGrid i j) (hc : cell i j = 0) :
    can_move x y := by
  rw [can_move, hx, hy]; exact ⟨hb, hc⟩

/-- Empty cells only occur in the interior of the grid (the border ring of
`game_map` is solid wall). -/
theorem cell_zero_interior : ∀ i j : ℤ, 0 ≤ i → i < 8 → 0 ≤ j → j < 8 →
    cell i j = 0 → 1 ≤ i ∧ i ≤ 6 ∧ 1 ≤ j ∧ j ≤ 6 := by
  intro i j hi hi8 hj hj8
  interval_cases i <;> interval_cases j <;> decide

/-- Every in-grid cell is 0 or 1. -/
theorem cell_le_one : ∀ i j : ℤ, 0 ≤ i → i < 8 → 0 ≤ j → j < 8 →
    cell i j ≤ 1 := by
  intro i j hi hi8 hj hj8
  interval_cases i <;> interval_cases j <;> decide

/-- The left border column of the grid is solid wall. -/
theorem cell_col_zero : ∀ j : ℤ, 0 ≤ j → j < 8 → cell 0 j = 1 := by
  intro j hj hj8
  interval_cases j <;> decide

/-- The top border row of the grid is solid wall. -/
theorem cell_row_zero : ∀ i : ℤ, 0 ≤ i → i < 8 → cell i 0 = 1 := by
  intro i hi hi8
  interval_cases i <;> decide

/-- A walkable point has both coordinates inside the interior band
`[TILE_SIZE, 7 * TILE_SIZE) = [64, 448)`. -/
theorem walkable_box {x y : ℝ} (h : can_move x y) :
    (64 ≤ x ∧ x < 448) ∧ (64 ≤ y ∧ y < 448) := by
  obtain ⟨⟨hi0, hi8, hj0, hj8⟩, hc⟩ := h
  rw [MAP_WIDTH] at hi8
  rw [MAP_HEIGHT] at hj8
  obtain ⟨h1i, h6i, h1j, h6j⟩ := cell_zero_interior _ _ hi0 hi8 hj0 hj8 hc
  have core : ∀ z : ℝ, 1 ≤ pyint (z / TILE_SIZE) → pyint (z / TILE_SIZE) ≤ 6 →
      64 ≤ z ∧ z < 448 := by
    intro z h1 h6
    have hq : 0 ≤ z / TILE_SIZE := by
      by_contra hq
      push_neg at hq
      have := pyint_nonpos_of_neg hq
      omega
    rw [pyint_of_nonneg hq] at h1 h6
    have hlo : (1 : ℝ) ≤ z / TILE_SIZE := by exact_mod_cast Int.le_floor.mp h1
    have hhi : z / TILE_SIZE < 7 := by
      have := Int.lt_floor_add_one (z / TILE_SIZE)
      have h7 : (⌊z / TILE_SIZE⌋ : ℝ) + 1 ≤ 7 := by exact_mod_cast by omega
      linarith
    rw [TILE_SIZE] at hlo hhi
    constructor
    · have := (one_le_div (show (0:ℝ) < 64 by norm_num)).mp hlo
      linarith
    · have := (div_lt_iff (show (0:ℝ) < 64 by norm_num)).mp hhi
      linarith
  exact ⟨core x h1i h6i, core y h1j h6j⟩

/- ## C2: can_move is false everywhere outside the grid -/

/-- C2: for every point outside the grid bounds (`x < 0`, `y < 0`,
`x ≥ MAP_WIDTH * TILE_SIZE` or `y ≥ MAP_HEIGHT * TILE_SIZE`), `can_move`
returns false: coordinates in `(-TILE_SIZE, 0)` truncate to index 0, but the
border row/column there is solid wall, and all other outside coordinates
fail the explicit bounds check. -/
theorem can_move_false_outside (x y : ℝ)
    (h : x < 0 ∨ y < 0 ∨ (MAP_WIDTH : ℝ) * TILE_SIZE ≤ x ∨
      (MAP_HEIGHT : ℝ) * TILE_SIZE ≤ y) :
    ¬ can_move x y := by
  rintro ⟨⟨hi0, hi8, hj0, hj8⟩, hc⟩
  rw [MAP_WIDTH] at hi8
  rw [MAP_HEIGHT] at hj8
  rcases h with hx | hy | hx | hy
  · have hneg : x / TILE_SIZE < 0 := by
      rw [TILE_SIZE]; exact div_neg_of_neg_of_pos hx (by norm_num)
    have hz : pyint (x / TILE_SIZE) = 0 :=
      le_antisymm (pyint_nonpos_of_neg hneg) hi0
    rw [hz] at hc
    have := cell_col_zero _ hj0 hj8
    omega
  · have hneg : y / TILE_SIZE < 0 := by
      rw [TILE_SIZE]; exact div_neg_of_neg_of_pos hy (by norm_num)
    have hz : pyint (y / TILE_SIZE) = 0 :=
      le_antisymm (pyint_nonpos_of_neg hneg) hj0
    rw [hz] at hc
    have := cell_row_zero _ hi0 hi8
    omega
  · rw [MAP_WIDTH, TILE_SIZE] at hx
    norm_num at hx
    have hq : (8 : ℝ) ≤ x / TILE_SIZE := by
      rw [TILE_SIZE, le_div_iff (show (0:ℝ) < 64 by norm_num)]; linarith
    have h0 : 0 ≤ x / TILE_SIZE := le_trans (by norm_num) hq
    rw [pyint_of_nonneg h0] at hi8
    have : (8 : ℤ) ≤ ⌊x / TILE_SIZE⌋ := Int.le_floor.mpr (by exact_mod_cast hq)
    omega
  · rw [MAP_HEIGHT, TILE_SIZE] at hy
    norm_num at hy
    have hq : (8 : ℝ) ≤ y / TILE_SIZE := by
      rw [TILE_SIZE, le_div_iff (show (0:ℝ) < 64 by norm_num)]; linarith
    have h0 : 0 ≤ y / TILE_SIZE := le_trans (by norm_num) hq
    rw [pyint_of_nonneg h0] at hj8
    have : (8 : ℤ) ≤ ⌊y / TILE_SIZE⌋ := Int.le_floor.mpr (by exact_mod_cast hq)
    omega

theorem can_move_false_outside_witness : ¬ can_move (-1 : ℝ) 96 :=
  can_move_false_outside (-1) 96 (Or.inl (by norm_num))

/- ## C9: wall height is antitone in corrected depth -/

/-- Projected wall height as a function of the corrected depth
(`PROJ_COEFF / (depth + 0.0001)`, source line 121). -/
def wallHeight (d : ℝ) : ℝ := PROJ_COEFF / (d + 0.0001)

theorem tan_half_fov_pos : 0 < Real.tan (FOV / 2) := by
  rw [FOV]
  apply Real.tan_pos_of_pos_of_lt_pi_div_two
  · positivity
  · have := Real.pi_pos
    linarith

theorem PROJ_COEFF_pos : 0 < PROJ_COEFF := by
  rw [PROJ_COEFF, DISTANCE, TILE_SIZE, NUM_RAYS]
  have := tan_half_fov_pos
  positivity

/-- C9: for fixed `K = PROJ_COEFF` and `ε = 0.0001`, the wall height
`K / (d + ε)` is monotonically non-increasing in the corrected depth `d`:
`0 ≤ d1 ≤ d2` implies `K / (d1 + ε) ≥ K / (d2 + ε)`. -/
theorem wallHeight_antitone (d1 d2 : ℝ) (h0 : 0 ≤ d1) (h12 : d1 ≤ d2) :
    wallHeight d2 ≤ wallHeight d1 := by
  rw [wallHeight, wallHeight]
  have hK := PROJ_COEFF_pos
  gcongr

theorem wallHeight_antitone_witness : wallHeight 1 ≤ wallHeight 0 :=
  wallHeight_antitone 0 1 (by norm_num) (by norm_num)

/- ## line_of_sight, enemies, player and the per-frame state transition -/

/-- Source `line_of_sight(px, py, ex, ey)`: the sampled occlusion loop
returns True iff every intermediate sample `step ∈ [1, steps)` along the
segment is walkable, where `steps = int(distance / 4)`. -/
def line_of_sight (px py ex ey : ℝ) : Prop :=
  ∀ step : ℤ, 1 ≤ step → step < pyint (hypot (ex - px) (ey - py) / 4) →
    can_move (px + (ex - px) * step / (pyint (hypot (ex - px) (ey - py) / 4) : ℝ))
      (py + (ey - py) * step / (pyint (hypot (ex - px) (ey - py) / 4) : ℝ))

structure Enemy where
  x : ℝ
  y : ℝ
  alive : Bool

def player_speed : ℝ := 2

def Enemy.distance_to_player (e : Enemy) (px py : ℝ) : ℝ :=
  hypot (px - e.x) (py - e.y)

/-- Source `Enemy.move_toward_player`: greedy step of length 0.5 toward the
player, committed only when the candidate cell passes the inline
bounds-and-empty check. -/
def Enemy.move_toward_player (e : Enemy) (px py : ℝ) : Enemy :=
  let angle := atan2 (py - e.y) (px - e.x)
  let new_x := e.x + 0.5 * Real.cos angle
  let new_y := e.y + 0.5 * Real.sin angle
  if inGrid (pyint (new_x / TILE_SIZE)) (pyint (new_y / TILE_SIZE)) ∧
      cell (pyint (new_x / TILE_SIZE)) (pyint (new_y / TILE_SIZE)) = 0 then
    { e with x := new_x, y := new_y }
  else e

/-- Source `Enemy.draw`: the sprite rectangle `(x, y, width, height)` the
enemy contributes this frame, or `none` when dead, occluded, or outside the
field of view. Python `//` on floats is real floor division. -/
def Enemy.draw (e : Enemy) (px py pa : ℝ) : Option (ℝ × ℝ × ℝ × ℝ) :=
  if e.alive = false then none
  else if ¬ line_of_sight px py e.x e.y then none
  else
    let dx := e.x - px
    let dy := e.y - py
    let distance := hypot dx dy
    let angle := atan2 dy dx - pa
    if -FOV / 2 < angle ∧ angle < FOV / 2 then
      let proj_height := PROJ_COEFF / (distance + 0.0001)
      some (((SCREEN_WIDTH / 2 : ℕ) : ℝ) + Real.tan angle * DISTANCE -
          ((⌊proj_height / 4⌋ : ℤ) : ℝ),
        ((SCREEN_HEIGHT / 2 : ℕ) : ℝ) - ((⌊proj_height / 2⌋ : ℤ) : ℝ),
        ((⌊proj_height / 2⌋ : ℤ) : ℝ), proj_height)
    else none

/-- The initial enemy roster from the source. -/
def enemies : List Enemy :=
  [⟨5 * TILE_SIZE, 5 * TILE_SIZE, true⟩, ⟨3 * TILE_SIZE, 6 * TILE_SIZE, true⟩]

/-- The wrapped angular difference `abs((angle - pa + π) % (2π) - π)` used by
the shooting branch of the game loop. -/
def angle_diff (pa angle : ℝ) : ℝ :=
  |pymod (angle - pa + Real.pi) (2 * Real.pi) - Real.pi|

/-- The effect of one held-fire frame on one enemy (game loop, shooting
branch): an alive enemy inside the angular window and hit range is marked
dead, every other enemy is untouched. -/
def fireEnemy (px py pa : ℝ) (e : Enemy) : Enemy :=
  if e.alive = true ∧ angle_diff pa (atan2 (e.y - py) (e.x - px)) < 0.1 ∧
      e.distance_to_player px py < 300 then
    { e with alive := false }
  else e

/-- One tick's key snapshot (A, D, W, S, SPACE). -/
structure Input where
  a : Bool
  d : Bool
  w : Bool
  s : Bool
  space : Bool

/-- Mutable simulation state: player pose and the enemy roster. -/
structure GState where
  px : ℝ
  py : ℝ
  pa : ℝ
  enemies : List Enemy

/-- Rotation keys: A subtracts 0.03 rad, D adds 0.03 rad, unconditionally. -/
def rotateStep (ka kd : Bool) (pa : ℝ) : ℝ :=
  let pa1 := if ka then pa - 0.03 else pa
  if kd then pa1 + 0.03 else pa1

/-- W key: forward candidate `pos + speed * (cos pa, sin pa)`, committed only
when `can_move` accepts it. -/
def moveW (s : GState) : GState :=
  let new_x := s.px + player_speed * Real.cos s.pa
  let new_y := s.py + player_speed * Real.sin s.pa
  if can_move new_x new_y then { s with px := new_x, py := new_y } else s

/-- S key: backward candidate `pos - speed * (cos pa, sin pa)`, committed
only when `can_move` accepts it. -/
def moveS (s : GState) : GState :=
  let new_x := s.px - player_speed * Real.cos s.pa
  let new_y := s.py - player_speed * Real.sin s.pa
  if can_move new_x new_y then { s with px := new_x, py := new_y } else s

/-- Rotation phase of one game-loop iteration. -/
def rotateST (inp : Input) (s : GState) : GState :=
  { s with pa := rotateStep inp.a inp.d s.pa }

/-- W-key phase of one game-loop iteration. -/
def moveWStep (w : Bool) (s : GState) : GState := if w then moveW s else s

/-- S-key phase of one game-loop iteration. -/
def moveSStep (ks : Bool) (s : GState) : GState := if ks then moveS s else s

/-- Shooting phase: while SPACE is held, every enemy is run through
`fireEnemy` against the current player pose. -/
def fireStep (sp : Bool) (s : GState) : GState :=
  if sp then { s with enemies := s.enemies.map (fireEnemy s.px s.py s.pa) }
  else s

/-- Enemy-advance phase: alive enemies pursue, dead ones are skipped. -/
def pursueStep (s : GState) : GState :=
  let pursueE := fun e : Enemy =>
    if e.alive = true then e.move_toward_player s.px s.py else e
  { s with enemies := s.enemies.map pursueE }

/-- One iteration of the game loop in source order: rotation, W move, S
move, shooting, then the enemy pursuit step (drawing mutates nothing). -/
def frameStep (inp : Input) (s : GState) : GState :=
  pursueStep (fireStep inp.space (moveSStep inp.s (moveWStep inp.w (rotateST inp s))))

/-- The configured start state: player at the center of tile (1,1)
(`TILE_SIZE + TILE_SIZE // 2 = 96` on each axis), heading 0, and the
configured roster. -/
def init : GState :=
  ⟨TILE_SIZE + TILE_SIZE / 2, TILE_SIZE + TILE_SIZE / 2, 0, enemies⟩

def runFrames (l : List Input) (s : GState) : GState :=
  l.foldl (fun st inp => frameStep inp st) s

/-- A state is reachable when some finite input sequence produces it from
the start state. -/
def Reachable (s : GState) : Prop := ∃ l : List Input, s = runFrames l init

/- ## Evaluation helpers for concrete angles and distances -/

theorem hypot_x (a : ℝ) : hypot a 0 = |a| := by
  rw [hypot, show a ^ 2 + (0:ℝ) ^ 2 = a ^ 2 by ring]
  exact Real.sqrt_sq_eq_abs a

theorem atan2_zero_pos {x : ℝ} (hx : 0 ≤ x) : atan2 0 x = 0 := by
  rw [atan2]
  rw [show (⟨x, 0⟩ : ℂ) = (x : ℂ) from Complex.ext (by simp) (by simp)]
  exact Complex.arg_ofReal_of_nonneg hx

theorem pymod_of_lt {a b : ℝ} (h0 : 0 ≤ a) (hb : 0 < b) (hab : a < b) :
    pymod a b = a := by
  rw [pymod]
  have hfl : ⌊a / b⌋ = 0 := by
    apply Int.floor_eq_iff.mpr
    constructor
    · push_cast
      positivity
    · push_cast
      have := (div_lt_one hb).mpr hab
      linarith
  rw [hfl]
  simp

theorem pymod_pi : pymod Real.pi (2 * Real.pi) = Real.pi := by
  have := Real.pi_pos
  exact pymod_of_lt this.le (by linarith) (by linarith)

theorem angle_diff_zero : angle_diff 0 0 = 0 := by
  rw [angle_diff, show (0:ℝ) - 0 + Real.pi = Real.pi by ring, pymod_pi]
  simp

/- ## C10: degenerate line of sight cases -/

/-- C10: `line_of_sight p p` is true for every point `p`; more generally,
whenever the sample count `steps = int(distance / 4)` is at most 1, the
sample index range `[1, steps)` is empty, so `line_of_sight` is true without
testing any intermediate sample (and the `step / steps` quotient is never
formed). -/
theorem line_of_sight_degenerate (px py ex ey : ℝ) :
    line_of_sight px py px py ∧
    (pyint (hypot (ex - px) (ey - py) / 4) ≤ 1 →
      line_of_sight px py ex ey ∧
      ∀ step : ℤ, ¬ (1 ≤ step ∧ step < pyint (hypot (ex - px) (ey - py) / 4))) := by
  constructor
  · intro step h1 h2
    exfalso
    have hz : pyint (hypot (px - px) (py - py) / 4) = 0 := by
      rw [show px - px = (0:ℝ) by ring, show py - py = (0:ℝ) by ring]
      rw [hypot]
      norm_num [pyint]
    rw [hz] at h2
    omega
  · intro hle
    have hemp : ∀ step : ℤ,
        ¬ (1 ≤ step ∧ step < pyint (hypot (ex - px) (ey - py) / 4)) := by
      intro step hs
      omega
    exact ⟨fun step h1 h2 => absurd ⟨h1, h2⟩ (hemp step), hemp⟩

theorem line_of_sight_degenerate_witness : line_of_sight 0 0 3 4 := by
  refine ((line_of_sight_degenerate 0 0 3 4).2 ?_).1
  have h5 : hypot ((3:ℝ) - 0) ((4:ℝ) - 0) = 5 := by
    rw [hypot, show ((3:ℝ) - 0) ^ 2 + ((4:ℝ) - 0) ^ 2 = 5 ^ 2 by norm_num]
    exact Real.sqrt_sq (by norm_num)
  rw [h5]
  exact le_of_eq (pyint_eq _ 1 (by norm_num) (by norm_num) (by norm_num))

/- ## C6: player movement commits the exact candidate or drops silently -/

/-- C6: for either movement sign, the move operation either sets the
position to exactly `pos ± speed * (cos heading, sin heading)` when
`can_move` accepts the candidate, or leaves the state exactly unchanged when
it rejects it — the heading and everything else are untouched and no error
is signalled. -/
theorem player_move_commit_or_drop (s : GState) :
    ((can_move (s.px + player_speed * Real.cos s.pa)
        (s.py + player_speed * Real.sin s.pa) →
      moveW s = { s with px := s.px + player_speed * Real.cos s.pa,
                         py := s.py + player_speed * Real.sin s.pa }) ∧
     (¬ can_move (s.px + player_speed * Real.cos s.pa)
        (s.py + player_speed * Real.sin s.pa) →
      moveW s = s)) ∧
    ((can_move (s.px - player_speed * Real.cos s.pa)
        (s.py - player_speed * Real.sin s.pa) →
      moveS s = { s with px := s.px - player_speed * Real.cos s.pa,
                         py := s.py - player_speed * Real.sin s.pa }) ∧
     (¬ can_move (s.px - player_speed * Real.cos s.pa)
        (s.py - player_speed * Real.sin s.pa) →
      moveS s = s)) := by
  refine ⟨⟨fun h => ?_, fun h => ?_⟩, ⟨fun h => ?_, fun h => ?_⟩⟩ <;>
    simp [moveW, moveS, h]

theorem player_move_commit_or_drop_witness :
    moveW ⟨96, 96, 0, []⟩ =
      { px := 96 + player_speed * Real.cos 0, py := 96 + player_speed * Real.sin 0,
        pa := 0, enemies := [] } :=
  (player_move_commit_or_drop ⟨96, 96, 0, []⟩).1.1 (by
    rw [Real.cos_zero, Real.sin_zero]
    norm_num [player_speed]
    exact can_move_eval
      (pyint_eq _ 1 (by norm_num [TILE_SIZE]) (by norm_num [TILE_SIZE])
        (by norm_num [TILE_SIZE]))
      (pyint_eq _ 1 (by norm_num [TILE_SIZE]) (by norm_num [TILE_SIZE])
        (by norm_num [TILE_SIZE]))
      (by decide) (by decide))

/- ## C4: the fire window is exactly angle < 0.1 rad and distance < 300 -/

/-- C4: one fire invocation marks an alive agent dead exactly when the
magnitude of the wrapped angular difference `abs((angle - heading + pi) mod
2*pi - pi)` is below 0.1 rad and the straight-line distance is below 300;
concretely an agent straight ahead at distance 100 dies, while one at
angular difference 0.2 rad and distance 100 survives. -/
theorem fire_hit_iff (px py pa : ℝ) (e : Enemy) (ha : e.alive = true) :
    ((fireEnemy px py pa e).alive = false ↔
      (angle_diff pa (atan2 (e.y - py) (e.x - px)) < 0.1 ∧
        e.distance_to_player px py < 300)) ∧
    (fireEnemy 0 0 0 ⟨100, 0, true⟩).alive = false ∧
    (fireEnemy 0 0 (-0.2) ⟨100, 0, true⟩).alive = true := by
  refine ⟨?_, ?_, ?_⟩
  · rw [fireEnemy]
    split_ifs with h
    · exact ⟨fun _ => ⟨h.2.1, h.2.2⟩, fun _ => rfl⟩
    · constructor
      · intro hf
        rw [ha] at hf
        exact absurd hf (by simp)
      · intro hc
        exact absurd ⟨ha, hc.1, hc.2⟩ h
  · rw [fireEnemy]
    split_ifs with h
    · rfl
    · exfalso
      apply h
      refine ⟨rfl, ?_, ?_⟩
      · show angle_diff 0 (atan2 (0 - 0) (100 - 0)) < 0.1
        rw [show (0:ℝ) - 0 = 0 by ring, show (100:ℝ) - 0 = 100 by ring,
          atan2_zero_pos (by norm_num : (0:ℝ) ≤ 100), angle_diff_zero]
        norm_num
      · show Enemy.distance_to_player ⟨100, 0, true⟩ 0 0 < 300
        rw [Enemy.distance_to_player]
        show hypot (0 - 100) (0 - 0) < 300
        rw [show (0:ℝ) - 100 = -100 by ring, show (0:ℝ) - 0 = 0 by ring, hypot_x]
        norm_num
  · rw [fireEnemy]
    split_ifs with h
    · exfalso
      obtain ⟨-, h2, -⟩ := h
      have key : angle_diff (-0.2)
          (atan2 ((⟨100, 0, true⟩ : Enemy).y - 0) ((⟨100, 0, true⟩ : Enemy).x - 0)) =
          0.2 := by
        show angle_diff (-0.2) (atan2 (0 - 0) (100 - 0)) = 0.2
        rw [show (0:ℝ) - 0 = 0 by ring, show (100:ℝ) - 0 = 100 by ring,
          atan2_zero_pos (by norm_num : (0:ℝ) ≤ 100)]
        rw [angle_diff, show (0:ℝ) - -0.2 + Real.pi = 0.2 + Real.pi by ring]
        rw [pymod_of_lt (by linarith [Real.pi_pos]) (by linarith [Real.pi_pos])
          (by linarith [Real.pi_gt_three])]
        rw [show (0.2:ℝ) + Real.pi - Real.pi = 0.2 by ring]
        rw [abs_of_nonneg (by norm_num)]
      rw [key] at h2
      norm_num at h2
    · rfl

theorem fire_hit_iff_witness : (fireEnemy 0 0 0 ⟨100, 0, true⟩).alive = false :=
  (fire_hit_iff 0 0 0 ⟨100, 0, true⟩ rfl).2.1

/- ## C5: fire resolution applies no line-of-sight check -/

/-- C5: the fire window ignores occlusion: the player at (96, 160) and an
alive agent at (224, 160) are separated by the wall cell (2, 2) (so
`line_of_sight` is false), yet one fire call with heading 0 marks the agent
dead because it is straight ahead at distance 128 < 300. -/
theorem fire_ignores_line_of_sight :
    ¬ line_of_sight 96 160 224 160 ∧
    (fireEnemy 96 160 0 ⟨224, 160, true⟩).alive = false := by
  constructor
  · intro hlos
    have hh : hypot ((224:ℝ) - 96) ((160:ℝ) - 160) = 128 := by
      rw [show (224:ℝ) - 96 = 128 by norm_num, show (160:ℝ) - 160 = 0 by norm_num,
        hypot_x]
      norm_num
    have hsteps : pyint (hypot ((224:ℝ) - 96) ((160:ℝ) - 160) / 4) = 32 := by
      rw [hh]
      exact pyint_eq _ 32 (by norm_num) (by norm_num) (by norm_num)
    have h8 := hlos 8 (by norm_num) (by rw [hsteps]; norm_num)
    rw [hsteps] at h8
    norm_num at h8
    obtain ⟨-, hc⟩ := h8
    rw [pyint_eq (128 / TILE_SIZE) 2 (by norm_num [TILE_SIZE]) (by norm_num [TILE_SIZE])
        (by norm_num [TILE_SIZE]),
      pyint_eq (160 / TILE_SIZE) 2 (by norm_num [TILE_SIZE]) (by norm_num [TILE_SIZE])
        (by norm_num [TILE_SIZE])] at hc
    exact absurd hc (by decide)
  · rw [fireEnemy]
    split_ifs with h
    · rfl
    · exfalso
      apply h
      refine ⟨rfl, ?_, ?_⟩
      · show angle_diff 0 (atan2 (160 - 160) (224 - 96)) < 0.1
        rw [show (160:ℝ) - 160 = 0 by norm_num, show (224:ℝ) - 96 = 128 by norm_num,
          atan2_zero_pos (by norm_num : (0:ℝ) ≤ 128), angle_diff_zero]
        norm_num
      · show Enemy.distance_to_player ⟨224, 160, true⟩ 96 160 < 300
        rw [Enemy.distance_to_player]
        show hypot (96 - 224) (160 - 160) < 300
        rw [show (96:ℝ) - 224 = -128 by norm_num, show (160:ℝ) - 160 = 0 by norm_num,
          hypot_x]
        norm_num

/- ## C3: the live-positions-in-empty-cells invariant -/

/-- All live positions (player and alive enemies) lie in empty cells. -/
def LiveInv (s : GState) : Prop :=
  can_move s.px s.py ∧ ∀ e ∈ s.enemies, e.alive = true → can_move e.x e.y

theorem moveW_enemies (s : GState) : (moveW s).enemies = s.enemies := by
  simp only [moveW]
  split_ifs <;> rfl

theorem moveS_enemies (s : GState) : (moveS s).enemies = s.enemies := by
  simp only [moveS]
  split_ifs <;> rfl

theorem liveInv_moveW (s : GState) (h : LiveInv s) : LiveInv (moveW s) := by
  obtain ⟨hp, he⟩ := h
  simp only [moveW]
  split_ifs with hc
  · exact ⟨hc, he⟩
  · exact ⟨hp, he⟩

theorem liveInv_moveS (s : GState) (h : LiveInv s) : LiveInv (moveS s) := by
  obtain ⟨hp, he⟩ := h
  simp only [moveS]
  split_ifs with hc
  · exact ⟨hc, he⟩
  · exact ⟨hp, he⟩

theorem fireEnemy_alive_pos (px py pa : ℝ) (e : Enemy)
    (hf : (fireEnemy px py pa e).alive = true) : fireEnemy px py pa e = e := by
  rw [fireEnemy] at hf ⊢
  split_ifs at hf ⊢ with h
  rfl

theorem move_toward_preserve (px py : ℝ) (e : Enemy) (h : can_move e.x e.y) :
    can_move (e.move_toward_player px py).x (e.move_toward_player px py).y ∧
    (e.move_toward_player px py).alive = e.alive := by
  simp only [Enemy.move_toward_player]
  split_ifs with hg
  · exact ⟨hg, rfl⟩
  · exact ⟨h, rfl⟩

theorem liveInv_fireStep (sp : Bool) (s : GState) (h : LiveInv s) : LiveInv (fireStep sp s) := by
  obtain ⟨hp, he⟩ := h
  rw [fireStep]
  split_ifs with hsp
  · refine ⟨hp, ?_⟩
    intro e2 he2 ha2
    obtain ⟨e, hmem, rfl⟩ := List.mem_map.mp he2
    have heq := fireEnemy_alive_pos s.px s.py s.pa e ha2
    rw [heq] at ha2 ⊢
    exact he e hmem ha2
  · exact ⟨hp, he⟩

theorem liveInv_pursueStep (s : GState) (h : LiveInv s) : LiveInv (pursueStep s) := by
  obtain ⟨hp, he⟩ := h
  rw [pursueStep]
  refine ⟨hp, ?_⟩
  intro e2 he2 ha2
  obtain ⟨e, hmem, rfl⟩ := List.mem_map.mp he2
  by_cases hal : e.alive = true
  · rw [if_pos hal] at ha2 ⊢
    exact (move_toward_preserve s.px s.py e (he e hmem hal)).1
  · rw [if_neg hal] at ha2 ⊢
    exact he e hmem ha2

theorem moveW_pos (s : GState) (h : can_move s.px s.py) :
    can_move (moveW s).px (moveW s).py := by
  simp only [moveW]
  split_ifs with hc
  · exact hc
  · exact h

theorem moveS_pos (s : GState) (h : can_move s.px s.py) :
    can_move (moveS s).px (moveS s).py := by
  simp only [moveS]
  split_ifs with hc
  · exact hc
  · exact h

theorem liveInv_frameStep (inp : Input) (s : GState) (h : LiveInv s) :
    LiveInv (frameStep inp s) := by
  rw [frameStep]
  apply liveInv_pursueStep
  apply liveInv_fireStep
  have h1 : LiveInv (rotateST inp s) := ⟨h.1, h.2⟩
  have h2 : LiveInv (moveWStep inp.w (rotateST inp s)) := by
    rw [moveWStep]
    split_ifs
    · exact liveInv_moveW _ h1
    · exact h1
  rw [moveSStep]
  split_ifs
  · exact liveInv_moveS _ h2
  · exact h2

/-- C3 counterexample: the claim fails at the initial state itself — the
first configured enemy, alive at position `(5 * TILE_SIZE, 5 * TILE_SIZE) =
(320, 320)`, sits in grid cell (5, 5), which is a Wall cell. -/
theorem live_positions_claim_false :
    ¬ (∀ s : GState, Reachable s →
        can_move s.px s.py ∧ ∀ e ∈ s.enemies, e.alive = true → can_move e.x e.y) := by
  intro hall
  obtain ⟨-, henemies⟩ := hall init ⟨[], rfl⟩
  have hmem : (⟨5 * TILE_SIZE, 5 * TILE_SIZE, true⟩ : Enemy) ∈ init.enemies := by
    show (⟨5 * TILE_SIZE, 5 * TILE_SIZE, true⟩ : Enemy) ∈ enemies
    rw [enemies]
    exact List.mem_cons_self _ _
  obtain ⟨-, hc⟩ := henemies _ hmem rfl
  rw [show (5 * TILE_SIZE : ℝ) / TILE_SIZE = 320 / 64 by rw [TILE_SIZE]; norm_num] at hc
  rw [pyint_eq (320 / 64) 5 (by norm_num) (by norm_num) (by norm_num)] at hc
  exact absurd hc (by decide)

/-- C3 amended: the player's position lies in an empty cell at every
reachable state, and one frame step preserves the invariant that the player
and every alive enemy lie in empty cells — but (per the counterexample) the
configured initial roster already violates that invariant. -/
theorem live_positions_amended :
    (∀ s : GState, Reachable s → can_move s.px s.py) ∧
    (∀ (inp : Input) (s : GState), LiveInv s → LiveInv (frameStep inp s)) := by
  constructor
  · have hstart : can_move (TILE_SIZE + TILE_SIZE / 2) (TILE_SIZE + TILE_SIZE / 2) := by
      have hx : pyint ((TILE_SIZE + TILE_SIZE / 2) / TILE_SIZE) = 1 := by
        rw [TILE_SIZE]
        exact pyint_eq _ 1 (by norm_num) (by norm_num) (by norm_num)
      exact can_move_eval hx hx (by decide) (by decide)
    have key : ∀ (l : List Input) (s : GState), can_move s.px s.py →
        can_move (runFrames l s).px (runFrames l s).py := by
      intro l
      induction l with
      | nil => exact fun s hs => hs
      | cons i t ih =>
        intro s hs
        show can_move (runFrames t (frameStep i s)).px (runFrames t (frameStep i s)).py
        apply ih
        have hproj : ∀ t2 : GState, (pursueStep (fireStep i.space t2)).px = t2.px ∧
            (pursueStep (fireStep i.space t2)).py = t2.py := by
          intro t2
          rw [pursueStep, fireStep]
          split_ifs <;> exact ⟨rfl, rfl⟩
        rw [frameStep, (hproj _).1, (hproj _).2]
        rw [moveSStep]
        split_ifs with hks
        · apply moveS_pos
          rw [moveWStep]
          split_ifs with hkw
          · exact moveW_pos _ hs
          · exact hs
        · rw [moveWStep]
          split_ifs with hkw
          · exact moveW_pos _ hs
          · exact hs
    rintro s ⟨l, rfl⟩
    exact key l init hstart
  · exact liveInv_frameStep

theorem live_positions_amended_witness :
    can_move init.px init.py ∧
    LiveInv (frameStep ⟨false, false, false, false, false⟩ ⟨96, 96, 0, []⟩) := by
  have hx : pyint ((96 : ℝ) / TILE_SIZE) = 1 := by
    rw [TILE_SIZE]
    exact pyint_eq _ 1 (by norm_num) (by norm_num) (by norm_num)
  have hcm : can_move (96 : ℝ) 96 := can_move_eval hx hx (by decide) (by decide)
  constructor
  · exact live_positions_amended.1 init ⟨[], rfl⟩
  · exact live_positions_amended.2 ⟨false, false, false, false, false⟩ ⟨96, 96, 0, []⟩
      ⟨hcm, fun e he => absurd he (List.not_mem_nil e)⟩

/- ## C7: a dead enemy is terminal -/

theorem fireEnemy_dead (px py pa : ℝ) (e : Enemy) (hd : e.alive = false) :
    fireEnemy px py pa e = e := by
  rw [fireEnemy, if_neg]
  rintro ⟨ha, -, -⟩
  rw [hd] at ha
  exact absurd ha (by simp)

theorem rotateST_enemies (inp : Input) (s : GState) :
    (rotateST inp s).enemies = s.enemies := rfl

theorem moveWStep_enemies (w : Bool) (s : GState) :
    (moveWStep w s).enemies = s.enemies := by
  rw [moveWStep]
  split_ifs
  · exact moveW_enemies s
  · rfl

theorem moveSStep_enemies (ks : Bool) (s : GState) :
    (moveSStep ks s).enemies = s.enemies := by
  rw [moveSStep]
  split_ifs
  · exact moveS_enemies s
  · rfl

theorem frameStep_dead_fixed (inp : Input) (s : GState) (m : ℕ) (e : Enemy)
    (hm : s.enemies[m]? = some e) (hd : e.alive = false) :
    (frameStep inp s).enemies[m]? = some e := by
  rw [frameStep]
  have ht : (moveSStep inp.s (moveWStep inp.w (rotateST inp s))).enemies = s.enemies := by
    rw [moveSStep_enemies, moveWStep_enemies, rotateST_enemies]
  have hfire : (fireStep inp.space (moveSStep inp.s (moveWStep inp.w
      (rotateST inp s)))).enemies[m]? = some e := by
    rw [fireStep]
    split_ifs
    · show ((moveSStep inp.s (moveWStep inp.w (rotateST inp s))).enemies.map _)[m]? = some e
      rw [List.getElem?_map, ht, hm, Option.map_some']
      rw [fireEnemy_dead _ _ _ e hd]
    · rw [ht, hm]
  rw [pursueStep]
  show ((fireStep inp.space (moveSStep inp.s (moveWStep inp.w
      (rotateST inp s)))).enemies.map _)[m]? = some e
  rw [List.getElem?_map, hfire, Option.map_some']
  rw [if_neg]
  rw [hd]
  simp

/-- C7: the Dead state is terminal: a dead enemy at roster index `m` is
never revived, never moved, and never drawn — after any sequence of frames
with any inputs it is still exactly the same record, and its draw output is
`none` against every observer pose. -/
theorem dead_enemy_terminal (s : GState) (m : ℕ) (e : Enemy)
    (hm : s.enemies[m]? = some e) (hd : e.alive = false) :
    ∀ l : List Input, (runFrames l s).enemies[m]? = some e ∧
      ∀ px py pa : ℝ, e.draw px py pa = none := by
  have hdraw : ∀ px py pa : ℝ, e.draw px py pa = none := by
    intro px py pa
    rw [Enemy.draw, if_pos hd]
  intro l
  refine ⟨?_, hdraw⟩
  induction l generalizing s with
  | nil => exact hm
  | cons i t ih =>
    show (runFrames t (frameStep i s)).enemies[m]? = some e
    exact ih (frameStep i s) (frameStep_dead_fixed i s m e hm hd)

theorem dead_enemy_terminal_witness :
    (runFrames [⟨false, false, false, false, false⟩]
        ⟨96, 96, 0, [⟨320, 320, false⟩]⟩).enemies[0]? = some ⟨320, 320, false⟩ ∧
      ∀ px py pa : ℝ, Enemy.draw ⟨320, 320, false⟩ px py pa = none :=
  dead_enemy_terminal ⟨96, 96, 0, [⟨320, 320, false⟩]⟩ 0 ⟨320, 320, false⟩ rfl rfl
    [⟨false, false, false, false, false⟩]

/- ## ray_casting: the per-column depth march -/

/-- Sample x coordinate at a given march depth (`pos[0] + depth * cos_a`). -/
def rayX (px a : ℝ) (depth : ℕ) : ℝ := px + depth * Real.cos a

/-- Sample y coordinate at a given march depth (`pos[1] + depth * sin_a`). -/
def rayY (py a : ℝ) (depth : ℕ) : ℝ := py + depth * Real.sin a

/-- Column index `i = int(x / TILE_SIZE)` at a given march depth. -/
def rayI (px a : ℝ) (depth : ℕ) : ℤ := pyint (rayX px a depth / TILE_SIZE)

/-- Row index `j = int(y / TILE_SIZE)` at a given march depth. -/
def rayJ (py a : ℝ) (depth : ℕ) : ℤ := pyint (rayY py a depth / TILE_SIZE)

/-- The angle of ray `r`: `start_angle + ray * DELTA_ANGLE`. -/
def curAngle (pa : ℝ) (r : ℕ) : ℝ := pa - FOV / 2 + r * DELTA_ANGLE

/-- The depth march samples depths `0, 4, 8, ...` (`range(0, MAX_DEPTH, 4)`,
i.e. depth `4 * k` at step `k < 200`). `marchReaches px py a k` states that
the march actually evaluates `game_map[j][i]` at step `k`: every earlier
step was an in-grid cell that was not a wall, so the loop neither broke nor
faulted before step `k`. -/
def marchReaches (px py a : ℝ) (k : ℕ) : Prop :=
  k < 200 ∧ ∀ k2 < k, inGrid (rayI px a (4 * k2)) (rayJ py a (4 * k2)) ∧
    cell (rayI px a (4 * k2)) (rayJ py a (4 * k2)) ≠ 1

/-- How one column's depth march ends: it breaks on the first sample that
reads 1 (`hit`), the `range(0, MAX_DEPTH, 4)` loop runs out (`exhausted`),
or a sample's index pair raises IndexError and the program aborts
(`fault`). -/
inductive MarchResult where
  | hit (depth : ℕ)
  | exhausted
  | fault (depth : ℕ)

/-- The march loop itself, from a given depth, with exact Python indexing
semantics for `game_map[j][i]` (negative-index wraparound, IndexError). -/
def marchFrom (px py a : ℝ) (depth : ℕ) : MarchResult :=
  if depth < MAX_DEPTH then
    match pyCell? (rayI px a depth) (rayJ py a depth) with
    | none => MarchResult.fault depth
    | some v => if v = 1 then MarchResult.hit depth else marchFrom px py a (depth + 4)
  else MarchResult.exhausted
termination_by MAX_DEPTH - depth
decreasing_by simp only [MAX_DEPTH] at *; omega

/-- The number of `game_map[j][i]` accesses the march loop attempts from a
given depth (a faulting access counts as the one attempt that raises). -/
def marchCount (px py a : ℝ) (depth : ℕ) : ℕ :=
  if depth < MAX_DEPTH then
    match pyCell? (rayI px a depth) (rayJ py a depth) with
    | none => 1
    | some v => if v = 1 then 1 else 1 + marchCount px py a (depth + 4)
  else 0
termination_by MAX_DEPTH - depth
decreasing_by simp only [MAX_DEPTH] at *; omega

/-- The draw command column `r` of `ray_casting` emits: the fisheye-corrected
rectangle and shade `(x, y, width, height, color)` on a wall hit, nothing
when the march exhausts `MAX_DEPTH`, and nothing on a fault (the program
aborts before drawing this column). -/
def rayColumn (px py pa : ℝ) (r : ℕ) : Option (ℝ × ℝ × ℝ × ℝ × ℝ) :=
  match marchFrom px py (curAngle pa r) 0 with
  | MarchResult.hit depth =>
    let depth2 := (depth : ℝ) * Real.cos (pa - curAngle pa r)
    let wh := wallHeight depth2
    let color := 255 / (1 + depth2 * depth2 * 0.0001)
    some (((r * SCALE : ℕ) : ℝ),
      ((SCREEN_HEIGHT / 2 : ℕ) : ℝ) - ((⌊wh / 2⌋ : ℤ) : ℝ),
      ((SCALE : ℕ) : ℝ), wh, color)
  | _ => none

/- ## C1: every evaluated grid index is in bounds -/

theorem march_inGrid (px py a : ℝ) (h : can_move px py) :
    ∀ k, marchReaches px py a k → inGrid (rayI px a (4 * k)) (rayJ py a (4 * k)) := by
  intro k
  cases k with
  | zero =>
    intro _
    have hx : rayI px a (4 * 0) = pyint (px / TILE_SIZE) := by
      rw [rayI, rayX]
      norm_num
    have hy : rayJ py a (4 * 0) = pyint (py / TILE_SIZE) := by
      rw [rayJ, rayY]
      norm_num
    rw [hx, hy]
    exact h.1
  | succ n =>
    intro hk
    obtain ⟨hk200, hall⟩ := hk
    have hprev := hall n (by omega)
    have hcm : can_move (rayX px a (4 * n)) (rayY py a (4 * n)) := by
      refine ⟨hprev.1, ?_⟩
      show cell (rayI px a (4 * n)) (rayJ py a (4 * n)) = 0
      have hle := cell_le_one (rayI px a (4 * n)) (rayJ py a (4 * n))
        hprev.1.1 hprev.1.2.1 hprev.1.2.2.1 hprev.1.2.2.2
      have hne := hprev.2
      omega
    have hbox := walkable_box hcm
    have hx : rayX px a (4 * (n + 1)) = rayX px a (4 * n) + 4 * Real.cos a := by
      rw [rayX, rayX]
      push_cast
      ring
    have hy : rayY py a (4 * (n + 1)) = rayY py a (4 * n) + 4 * Real.sin a := by
      rw [rayY, rayY]
      push_cast
      ring
    have hcos1 := Real.neg_one_le_cos a
    have hcos2 := Real.cos_le_one a
    have hsin1 := Real.neg_one_le_sin a
    have hsin2 := Real.sin_le_one a
    have hidx : ∀ (v : ℝ), 0 ≤ v → v < 512 →
        0 ≤ pyint (v / TILE_SIZE) ∧ pyint (v / TILE_SIZE) < 8 := by
      intro v hv0 hv512
      have h0 : 0 ≤ v / TILE_SIZE := by
        rw [TILE_SIZE]
        positivity
      rw [pyint_of_nonneg h0]
      constructor
      · exact Int.floor_nonneg.mpr h0
      · apply Int.floor_lt.mpr
        rw [TILE_SIZE]
        rw [div_lt_iff (show (0:ℝ) < 64 by norm_num)]
        push_cast
        linarith
    have hxi := hidx (rayX px a (4 * (n + 1)))
      (by rw [hx]; linarith [hbox.1.1]) (by rw [hx]; linarith [hbox.1.2])
    have hyi := hidx (rayY py a (4 * (n + 1)))
      (by rw [hy]; linarith [hbox.2.1]) (by rw [hy]; linarith [hbox.2.2])
    exact ⟨hxi.1, hxi.2, hyi.1, hyi.2⟩

/-- C1: for every observer pose whose position lies in an empty cell of the
map and every ray, every evaluation of `game_map[j][i]` that the depth march
actually performs has `0 ≤ i < MAP_WIDTH` and `0 ≤ j < MAP_HEIGHT`: the
border ring of this map is solid wall and the depth step (4) is smaller than
the tile size (64), so the march always breaks on a wall cell before any
index can leave the grid. (The source has no explicit bounds guard; this
theorem shows the accesses stay in range regardless.) -/
theorem ray_casting_in_bounds (px py heading : ℝ) (r : ℕ) (hr : r < NUM_RAYS)
    (h : can_move px py) :
    ∀ k, marchReaches px py (curAngle heading r) k →
      inGrid (rayI px (curAngle heading r) (4 * k))
        (rayJ py (curAngle heading r) (4 * k)) :=
  march_inGrid px py (curAngle heading r) h

theorem ray_casting_in_bounds_witness :
    can_move 96 96 ∧
    ∀ k, marchReaches 96 96 (curAngle 0 0) k →
      inGrid (rayI 96 (curAngle 0 0) (4 * k)) (rayJ 96 (curAngle 0 0) (4 * k)) := by
  have hx : pyint ((96 : ℝ) / TILE_SIZE) = 1 := by
    rw [TILE_SIZE]
    exact pyint_eq _ 1 (by norm_num) (by norm_num) (by norm_num)
  have hcm : can_move (96 : ℝ) 96 := can_move_eval hx hx (by decide) (by decide)
  exact ⟨hcm, ray_casting_in_bounds 96 96 0 0 (by norm_num [NUM_RAYS]) hcm⟩

/- ## C8: how the march ends, and its 200-sample bound -/

theorem marchCount_le (px py a : ℝ) :
    ∀ n depth, MAX_DEPTH ≤ depth + 4 * n → marchCount px py a depth ≤ n := by
  intro n
  induction n with
  | zero =>
    intro depth hd
    rw [marchCount, if_neg (by omega)]
  | succ n ih =>
    intro depth hd
    rw [marchCount]
    split_ifs with h1
    · cases hc : pyCell? (rayI px a depth) (rayJ py a depth) with
      | none =>
        show 1 ≤ n + 1
        omega
      | some v =>
        show (if v = 1 then 1 else 1 + marchCount px py a (depth + 4)) ≤ n + 1
        split_ifs with hv
        · omega
        · have := ih (depth + 4) (by omega)
          omega
    · omega

theorem marchFrom_hit (px py a : ℝ) :
    ∀ n depth d, MAX_DEPTH ≤ depth + 4 * n →
      marchFrom px py a depth = MarchResult.hit d →
      pyCell? (rayI px a d) (rayJ py a d) = some 1 ∧ depth ≤ d ∧ (d - depth) % 4 = 0 ∧
      ∀ d2, depth ≤ d2 → d2 < d → (d2 - depth) % 4 = 0 →
        ∃ v, pyCell? (rayI px a d2) (rayJ py a d2) = some v ∧ v ≠ 1 := by
  intro n
  induction n with
  | zero =>
    intro depth d hd hm
    rw [marchFrom, if_neg (by omega)] at hm
    simp at hm
  | succ n ih =>
    intro depth d hd hm
    rw [marchFrom] at hm
    split_ifs at hm with h1
    cases hc : pyCell? (rayI px a depth) (rayJ py a depth) with
    | none =>
      rw [hc] at hm
      simp at hm
    | some v =>
      rw [hc] at hm
      have hm2 : (if v = 1 then MarchResult.hit depth
          else marchFrom px py a (depth + 4)) = MarchResult.hit d := hm
      split_ifs at hm2 with hv
      · obtain rfl : depth = d := by
          injection hm2
        refine ⟨hv ▸ hc, le_refl _, by omega, ?_⟩
        intro d2 hle hlt _
        omega
      · obtain ⟨hcell, hd4, hmod, hfirst⟩ := ih (depth + 4) d (by omega) hm2
        refine ⟨hcell, by omega, by omega, ?_⟩
        intro d2 hle hlt hmod2
        by_cases hd2 : d2 = depth
        · subst hd2
          exact ⟨v, hc, hv⟩
        · exact hfirst d2 (by omega) hlt (by omega)

theorem marchFrom_fault (px py a : ℝ) :
    ∀ n depth d, MAX_DEPTH ≤ depth + 4 * n →
      marchFrom px py a depth = MarchResult.fault d →
      pyCell? (rayI px a d) (rayJ py a d) = none ∧ depth ≤ d ∧ (d - depth) % 4 = 0 ∧
      ∀ d2, depth ≤ d2 → d2 < d → (d2 - depth) % 4 = 0 →
        ∃ v, pyCell? (rayI px a d2) (rayJ py a d2) = some v ∧ v ≠ 1 := by
  intro n
  induction n with
  | zero =>
    intro depth d hd hm
    rw [marchFrom, if_neg (by omega)] at hm
    simp at hm
  | succ n ih =>
    intro depth d hd hm
    rw [marchFrom] at hm
    split_ifs at hm with h1
    cases hc : pyCell? (rayI px a depth) (rayJ py a depth) with
    | none =>
      rw [hc] at hm
      have hm2 : MarchResult.fault depth = MarchResult.fault d := hm
      obtain rfl : depth = d := by
        injection hm2
      refine ⟨hc, le_refl _, by omega, ?_⟩
      intro d2 hle hlt _
      omega
    | some v =>
      rw [hc] at hm
      have hm2 : (if v = 1 then MarchResult.hit depth
          else marchFrom px py a (depth + 4)) = MarchResult.fault d := hm
      split_ifs at hm2 with hv
      obtain ⟨hcell, hd4, hmod, hfirst⟩ := ih (depth + 4) d (by omega) hm2
      refine ⟨hcell, by omega, by omega, ?_⟩
      intro d2 hle hlt hmod2
      by_cases hd2 : d2 = depth
      · subst hd2
        exact ⟨v, hc, hv⟩
      · exact hfirst d2 (by omega) hlt (by omega)

/-- C8 counterexample: at the observer pose `(-10000, 96)` the very first
sample of ray 0 computes column index `int(-10000 / 64) = -156`, and
`game_map[1][-156]` raises IndexError (−156 is below −8, so Python neither
reads in range nor wraps): the march stops neither at a first Wall cell hit
nor by exhausting the depth range, refuting the claim's disjunction at this
concrete pose. -/
theorem ray_march_out_of_map_faults :
    marchFrom (-10000) 96 (curAngle 0 0) 0 = MarchResult.fault 0 ∧
    (∀ d, marchFrom (-10000) 96 (curAngle 0 0) 0 ≠ MarchResult.hit d) ∧
    marchFrom (-10000) 96 (curAngle 0 0) 0 ≠ MarchResult.exhausted := by
  have hi : rayI (-10000) (curAngle 0 0) 0 = -156 := by
    rw [rayI, rayX]
    norm_num
    rw [TILE_SIZE, pyint, if_neg (by norm_num)]
    apply Int.ceil_eq_iff.mpr
    constructor <;> norm_num
  have hj : rayJ 96 (curAngle 0 0) 0 = 1 := by
    rw [rayJ, rayY]
    norm_num
    rw [TILE_SIZE]
    exact pyint_eq _ 1 (by norm_num) (by norm_num) (by norm_num)
  have hmain : marchFrom (-10000) 96 (curAngle 0 0) 0 = MarchResult.fault 0 := by
    rw [marchFrom, if_pos (by norm_num [MAX_DEPTH])]
    rw [hi, hj]
    have hc : pyCell? (-156) 1 = none := by decide
    rw [hc]
  refine ⟨hmain, ?_, ?_⟩
  · intro d hd
    rw [hmain] at hd
    simp at hd
  · intro hd
    rw [hmain] at hd
    simp at hd

/-- C8 amended: for every observer pose and every ray index, the depth march
attempts at most `MAX_DEPTH / 4 = 200` cell accesses and then stops — at the
first sampled cell whose Python read (wraparound included) is Wall, by
exhausting the depth range (in which case no draw command is emitted for the
column), or, for poses whose samples index outside Python's valid range, by
an IndexError at the first such sample. -/
theorem ray_march_bounded_stops (px py pa : ℝ) (r : ℕ) :
    marchCount px py (curAngle pa r) 0 ≤ MAX_DEPTH / 4 ∧
    MAX_DEPTH / 4 = 200 ∧
    (∀ d, marchFrom px py (curAngle pa r) 0 = MarchResult.hit d →
      pyCell? (rayI px (curAngle pa r) d) (rayJ py (curAngle pa r) d) = some 1 ∧
      ∀ k : ℕ, 4 * k < d → ∃ v,
        pyCell? (rayI px (curAngle pa r) (4 * k))
          (rayJ py (curAngle pa r) (4 * k)) = some v ∧ v ≠ 1) ∧
    (∀ d, marchFrom px py (curAngle pa r) 0 = MarchResult.fault d →
      pyCell? (rayI px (curAngle pa r) d) (rayJ py (curAngle pa r) d) = none ∧
      ∀ k : ℕ, 4 * k < d → ∃ v,
        pyCell? (rayI px (curAngle pa r) (4 * k))
          (rayJ py (curAngle pa r) (4 * k)) = some v ∧ v ≠ 1) ∧
    (marchFrom px py (curAngle pa r) 0 = MarchResult.exhausted →
      rayColumn px py pa r = none) := by
  refine ⟨?_, by norm_num [MAX_DEPTH], ?_, ?_, ?_⟩
  · have h200 : MAX_DEPTH / 4 = 200 := by norm_num [MAX_DEPTH]
    rw [h200]
    exact marchCount_le px py (curAngle pa r) 200 0 (by norm_num [MAX_DEPTH])
  · intro d hm
    obtain ⟨hc, -, -, hfirst⟩ :=
      marchFrom_hit px py (curAngle pa r) 200 0 d (by norm_num [MAX_DEPTH]) hm
    exact ⟨hc, fun k hk => hfirst (4 * k) (by omega) hk (by omega)⟩
  · intro d hm
    obtain ⟨hc, -, -, hfirst⟩ :=
      marchFrom_fault px py (curAngle pa r) 200 0 d (by norm_num [MAX_DEPTH]) hm
    exact ⟨hc, fun k hk => hfirst (4 * k) (by omega) hk (by omega)⟩
  · intro hex
    simp [rayColumn, hex]

theorem ray_march_bounded_stops_witness :
    marchCount 0 0 (curAngle 0 0) 0 ≤ MAX_DEPTH / 4 :=
  (ray_march_bounded_stops 0 0 0 0).1

end
